import Mathlib

/-!
Shallow embedding of the streaming query client in
src/app/components/SECAnalyzer.tsx (first component version, the variant
the specification documents): the submit guard and state reset of
handleSubmit (lines 94-113), the chunk/line decoding loop (lines 139-206),
the per-line payload dispatch (lines 161-201) and the catch/finally
cleanup (lines 208-215).  Text is modelled as List Char; the TextDecoder
is invoked with stream mode, so byte boundaries inside a code point are
invisible at this level and chunks are modelled as already-decoded text.
-/

namespace SecIntel

/-- Whitespace accepted between tokens by JSON.parse (space, tab, newline,
carriage return). -/
def isJsonWs (c : Char) : Bool :=
  c == ' ' || c == '\t' || c == '\n' || c == '\r'

/-- Whitespace removed by the JS trim call on payload text and on the query
(line 97 and line 164 of the source); modelled for the common ASCII
whitespace characters. -/
def isWsChar (c : Char) : Bool :=
  c == ' ' || c == '\t' || c == '\n' || c == '\r' || c == '\x0b' || c == '\x0c'

/-- JS String.prototype.trim: strip leading and trailing whitespace. -/
def jsTrim (s : List Char) : List Char :=
  ((s.dropWhile isWsChar).reverse.dropWhile isWsChar).reverse

def skipWs : List Char → List Char
  | [] => []
  | c :: rest => if isJsonWs c then skipWs rest else c :: rest

/-- JSON values as produced by JSON.parse.  A number is recorded as a pair
of a zero test (for JS truthiness) and its source lexeme (for JS string
coercion; exact for the payloads exchanged here, which never carry
numbers needing float renormalisation). -/
inductive Json where
  | null : Json
  | bool : Bool → Json
  | num : Bool → List Char → Json
  | str : List Char → Json
  | arr : List Json → Json
  | obj : List (List Char × Json) → Json

def hexVal (c : Char) : Option Nat :=
  if '0' ≤ c ∧ c ≤ '9' then some (c.toNat - '0'.toNat)
  else if 'a' ≤ c ∧ c ≤ 'f' then some (c.toNat - 'a'.toNat + 10)
  else if 'A' ≤ c ∧ c ≤ 'F' then some (c.toNat - 'A'.toNat + 10)
  else none

/-- Body of a JSON string literal after the opening quote: returns the
decoded characters and the text after the closing quote.  Handles the
standard escapes and \u hex escapes; raw control characters are rejected,
as JSON.parse rejects them. -/
def parseStringBody : List Char → Option (List Char × List Char)
  | [] => none
  | c :: rest =>
    if c = '"' then some ([], rest)
    else if c = '\\' then
      match rest with
      | [] => none
      | e :: rest2 =>
        if e = 'u' then
          match rest2 with
          | h1 :: h2 :: h3 :: h4 :: rest3 =>
            match hexVal h1, hexVal h2, hexVal h3, hexVal h4 with
            | some a, some b, some c2, some d =>
              match parseStringBody rest3 with
              | some (s, r) =>
                some (Char.ofNat (((a * 16 + b) * 16 + c2) * 16 + d) :: s, r)
              | none => none
            | _, _, _, _ => none
          | _ => none
        else
          match (if e = '"' then some '"'
                 else if e = '\\' then some '\\'
                 else if e = '/' then some '/'
                 else if e = 'n' then some '\n'
                 else if e = 't' then some '\t'
                 else if e = 'r' then some '\r'
                 else if e = 'b' then some '\x08'
                 else if e = 'f' then some '\x0c'
                 else none) with
          | some ec =>
            match parseStringBody rest2 with
            | some (s, r) => some (ec :: s, r)
            | none => none
          | none => none
    else if c.toNat < 32 then none
    else
      match parseStringBody rest with
      | some (s, r) => some (c :: s, r)
      | none => none

def digitsZero (ds : List Char) : Bool := ds.all (fun c => c == '0')

/-- Optional fraction part of a JSON number: returns the fraction digits
and the remainder; none when a dot is not followed by a digit. -/
def parseFrac (s : List Char) : Option (List Char × List Char) :=
  match s with
  | c :: rest =>
    if c = '.' then
      match rest with
      | d :: _ =>
        if d.isDigit then
          some (rest.takeWhile Char.isDigit, rest.dropWhile Char.isDigit)
        else none
      | [] => none
    else some ([], s)
  | [] => some ([], s)

/-- Optional exponent part of a JSON number: returns the remainder; none
when an exponent marker is not followed by digits. -/
def parseExp (s : List Char) : Option (List Char) :=
  match s with
  | c :: rest =>
    if c = 'e' ∨ c = 'E' then
      match rest with
      | d :: rest2 =>
        if d = '+' ∨ d = '-' then
          match rest2 with
          | e2 :: _ =>
            if e2.isDigit then some (rest2.dropWhile Char.isDigit) else none
          | [] => none
        else if d.isDigit then some (rest.dropWhile Char.isDigit)
        else none
      | [] => none
    else some s
  | [] => some s

/-- JSON number: optional minus, integer digits with no leading zero,
optional fraction and exponent.  The zero test ignores the exponent
(denormal float underflow is not modelled; no payload here carries
numbers). -/
def parseNumber (s : List Char) : Option (Json × List Char) :=
  let s1 :=
    match s with
    | c :: rest => if c = '-' then rest else s
    | [] => s
  let intDigits := s1.takeWhile Char.isDigit
  let r1 := s1.dropWhile Char.isDigit
  if intDigits.isEmpty then none
  else if 2 ≤ intDigits.length ∧ intDigits.headD ' ' = '0' then none
  else
    match parseFrac r1 with
    | none => none
    | some (fracDigits, r2) =>
      match parseExp r2 with
      | none => none
      | some r3 =>
        some (Json.num (digitsZero intDigits && digitsZero fracDigits)
                (s.take (s.length - r3.length)), r3)

/-- Comma-separated array items up to the closing bracket, parsing each
value with the supplied value parser. -/
def parseItemsF (pv : List Char → Option (Json × List Char)) :
    Nat → List Char → Option (List Json × List Char)
  | 0, _ => none
  | Nat.succ fuel, s =>
    match pv s with
    | none => none
    | some (v, r) =>
      match skipWs r with
      | [] => none
      | c :: r2 =>
        if c = ',' then
          match parseItemsF pv fuel r2 with
          | some (vs, r3) => some (v :: vs, r3)
          | none => none
        else if c = ']' then some ([v], r2)
        else none

/-- Comma-separated object members up to the closing brace, parsing each
value with the supplied value parser. -/
def parseMembersF (pv : List Char → Option (Json × List Char)) :
    Nat → List Char → Option (List (List Char × Json) × List Char)
  | 0, _ => none
  | Nat.succ fuel, s =>
    match skipWs s with
    | [] => none
    | c :: r =>
      if c = '"' then
        match parseStringBody r with
        | none => none
        | some (key, r1) =>
          match skipWs r1 with
          | [] => none
          | d :: r2 =>
            if d = ':' then
              match pv r2 with
              | none => none
              | some (v, r3) =>
                match skipWs r3 with
                | [] => none
                | e :: r4 =>
                  if e = ',' then
                    match parseMembersF pv fuel r4 with
                    | some (fs, r5) => some ((key, v) :: fs, r5)
                    | none => none
                  else if e = '\x7d' then some ([(key, v)], r4)
                  else none
            else none
      else none

/-- One JSON value; the fuel bounds nesting and member counts and every
unit of it is matched by at least one consumed character, so a fuel of
input length plus two never runs out on valid input. -/
def parseVal : Nat → List Char → Option (Json × List Char)
  | 0, _ => none
  | Nat.succ fuel, s =>
    match skipWs s with
    | [] => none
    | c :: rest =>
      if c = 'n' then
        match rest with
        | 'u' :: 'l' :: 'l' :: r => some (Json.null, r)
        | _ => none
      else if c = 't' then
        match rest with
        | 'r' :: 'u' :: 'e' :: r => some (Json.bool true, r)
        | _ => none
      else if c = 'f' then
        match rest with
        | 'a' :: 'l' :: 's' :: 'e' :: r => some (Json.bool false, r)
        | _ => none
      else if c = '"' then
        match parseStringBody rest with
        | some (str, r) => some (Json.str str, r)
        | none => none
      else if c = '[' then
        match skipWs rest with
        | ']' :: r2 => some (Json.arr [], r2)
        | r2 =>
          match parseItemsF (parseVal fuel) fuel r2 with
          | some (vs, r3) => some (Json.arr vs, r3)
          | none => none
      else if c = '\x7b' then
        match skipWs rest with
        | '\x7d' :: r2 => some (Json.obj [], r2)
        | r2 =>
          match parseMembersF (parseVal fuel) fuel r2 with
          | some (fs, r3) => some (Json.obj fs, r3)
          | none => none
      else parseNumber (c :: rest)

/-- JSON.parse on a payload string: one JSON value with nothing but
whitespace after it. -/
def parseJson (s : List Char) : Option Json :=
  match parseVal (s.length + 2) s with
  | some (j, r) => if (skipWs r).isEmpty then some j else none
  | none => none

def Json.isNull : Json → Bool
  | Json.null => true
  | _ => false

/-- JS property read on a JSON.parse result: present only on objects;
with duplicate keys the last assignment wins, as in JS object literals.
none plays the role of undefined. -/
def getField : Json → List Char → Option Json
  | Json.obj fields, key =>
    (fields.reverse.find? (fun f => f.1 == key)).map (fun f => f.2)
  | _, _ => none

/-- JS truthiness of a property read: undefined, null, false, zero and the
empty string are falsy; everything else is truthy. -/
def jsTruthy : Option Json → Bool
  | none => false
  | some Json.null => false
  | some (Json.bool b) => b
  | some (Json.num isZero _) => !isZero
  | some (Json.str s) => !s.isEmpty
  | some (Json.arr _) => true
  | some (Json.obj _) => true

/-- JS string coercion of a value, as used by the template literal on
line 182 and the string concatenation on line 188; arrays join their
elements with commas and null inside an array becomes empty, as in JS. -/
def jsToStringF : Nat → Json → List Char
  | _, Json.null => ("null").toList
  | _, Json.bool true => ("true").toList
  | _, Json.bool false => ("false").toList
  | _, Json.num _ lex => lex
  | _, Json.str s => s
  | _, Json.obj _ => ("[object Object]").toList
  | 0, Json.arr _ => []
  | Nat.succ fuel, Json.arr elems =>
    (List.intersperse [','] (elems.map (fun e =>
      match e with
      | Json.null => []
      | e2 => jsToStringF fuel e2))).flatten

/-- One decoded stream event, as in the data model of the specification:
incremental content, terminal success (an explicit done marker or the
end-of-stream sentinel), or a terminal server-signalled error. -/
inductive StreamEvent where
  | content : List Char → StreamEvent
  | doneEv : StreamEvent
  | errorEv : List Char → StreamEvent
deriving DecidableEq

/-- The state local to one stream consumption: the carry-over text buffer
of line 141, plus the shared response accumulator, loading flag, and the
decoded event history; halted records that the handler returned early on
a terminal payload, after which no further line or chunk is processed. -/
structure ConsumerState where
  buffer : List Char
  resp : List Char
  loading : Bool
  halted : Bool
  events : List StreamEvent
deriving DecidableEq

def dataMark : List Char := ("data: ").toList

def doneToken : List Char := ("[DONE]").toList

def doneKey : List Char := ("done").toList

def errorKey : List Char := ("error").toList

def contentKey : List Char := ("content").toList

def errNotice : List Char := ("\n\nError: ").toList

/-- The effect one complete line has, a function of the line alone
(lines 161-201 of the source): a recognized content line is sliced after
the prefix and trimmed; the literal sentinel and a truthy done field end
the stream; otherwise a truthy error field appends a notice and ends the
stream; otherwise a truthy content field appends; a payload that fails to
parse (or is null, whose property read throws into the same catch) is
skipped; every line without the content prefix (blank lines, the
event/id/retry markers, anything else) falls through to a skip. -/
inductive LineEffect where
  | skip : LineEffect
  | append : List Char → LineEffect
  | finish : LineEffect
  | fail : List Char → LineEffect
deriving DecidableEq

def lineEffect (line : List Char) : LineEffect :=
  if dataMark.isPrefixOf line then
    let dataStr := jsTrim (line.drop 6)
    if dataStr = doneToken then LineEffect.finish
    else
      match parseJson dataStr with
      | none => LineEffect.skip
      | some j =>
        if j.isNull then LineEffect.skip
        else if jsTruthy (getField j doneKey) then LineEffect.finish
        else if jsTruthy (getField j errorKey) then
          LineEffect.fail (jsToStringF dataStr.length
            ((getField j errorKey).getD Json.null))
        else if jsTruthy (getField j contentKey) then
          LineEffect.append (jsToStringF dataStr.length
            ((getField j contentKey).getD Json.null))
        else LineEffect.skip
  else LineEffect.skip

/-- Apply one complete line to the consumer state, mirroring the loop body
of lines 161-201: append updates the accumulator, finish clears the
loading flag and returns, fail appends the error notice, clears the flag
and returns; after a return nothing further runs. -/
def processLine (st : ConsumerState) (line : List Char) : ConsumerState :=
  if st.halted then st
  else
    match lineEffect line with
    | LineEffect.skip => st
    | LineEffect.append s =>
      { st with resp := st.resp ++ s,
                events := st.events ++ [StreamEvent.content s] }
    | LineEffect.finish =>
      { st with loading := false, halted := true,
                events := st.events ++ [StreamEvent.doneEv] }
    | LineEffect.fail msg =>
      { st with resp := st.resp ++ errNotice ++ msg,
                loading := false, halted := true,
                events := st.events ++ [StreamEvent.errorEv msg] }

def processLines (st : ConsumerState) (lines : List (List Char)) :
    ConsumerState :=
  lines.foldl processLine st

/-- The split of lines 156-159 in fused form: buffer.split on newline
yields the segments, the popped trailing segment (the partial line) is the
new buffer, and the remaining segments are the complete lines.  The first
component is that complete-line list, the second the trailing segment. -/
def splitComplete : List Char → List (List Char) × List Char
  | [] => ([], [])
  | c :: rest =>
    let p := splitComplete rest
    if c = '\n' then ([] :: p.1, p.2)
    else
      match p.1 with
      | l :: ls => ((c :: l) :: ls, p.2)
      | [] => ([], c :: p.2)

/-- One iteration of the read loop (lines 144-203): append the decoded
chunk to the carry-over buffer, split off the complete lines, keep the
trailing partial line, and process each complete line in order.  Once the
handler has returned on a terminal payload no further chunk is read. -/
def feedChunk (st : ConsumerState) (chunk : List Char) : ConsumerState :=
  if st.halted then st
  else
    let p := splitComplete (st.buffer ++ chunk)
    processLines { st with buffer := p.2 } p.1

/-- Consumer state at the start of a stream: submit has just set the
loading flag and reset the accumulator (lines 99-100), the buffer starts
empty (line 141). -/
def initState : ConsumerState :=
  { buffer := [], resp := [], loading := true, halted := false, events := [] }

def runChunks (chunks : List (List Char)) : ConsumerState :=
  chunks.foldl feedChunk initState

/-- A whole stream consumption: all chunks, then the finally block of
lines 213-215, which clears the loading flag on every exit path. -/
def runStream (chunks : List (List Char)) : ConsumerState :=
  { runChunks chunks with loading := false }

/-- Text a decoded event contributes to the response accumulator. -/
def eventText : StreamEvent → List Char
  | StreamEvent.content s => s
  | StreamEvent.doneEv => []
  | StreamEvent.errorEv m => errNotice ++ m

def isContentEv : StreamEvent → Bool
  | StreamEvent.content _ => true
  | _ => false

def contentOf : StreamEvent → Option (List Char)
  | StreamEvent.content s => some s
  | _ => none

/-- Truthy done field of a recognized content line's parsed payload. -/
def lineDoneTruthy (line : List Char) : Bool :=
  match parseJson (jsTrim (line.drop 6)) with
  | some j => !j.isNull && jsTruthy (getField j doneKey)
  | none => false

/-- A recognized content line whose payload terminates the stream as a
success: the literal sentinel, or a parsed non-null payload with a truthy
done field. -/
def isTerminalDoneLine (line : List Char) : Bool :=
  dataMark.isPrefixOf line &&
    (jsTrim (line.drop 6) = doneToken || lineDoneTruthy line)

/-- The error message a recognized content line surfaces: present exactly
when the payload parses to a non-null value whose done field is falsy and
whose error field is truthy; the message is the JS string coercion of that
error field. -/
def lineErrorMsg (line : List Char) : Option (List Char) :=
  if jsTrim (line.drop 6) = doneToken then none
  else
    match parseJson (jsTrim (line.drop 6)) with
    | some j =>
      if !j.isNull && !jsTruthy (getField j doneKey) &&
          jsTruthy (getField j errorKey) then
        some (jsToStringF (jsTrim (line.drop 6)).length
          ((getField j errorKey).getD Json.null))
      else none
    | none => none

/-- The submit-level shared state: response accumulator, loading flag, and
the identity of the pending request handle (the AbortController of line
113; each submission that issues a request creates a fresh one). -/
structure UiState where
  resp : List Char
  loading : Bool
  gen : Nat
deriving DecidableEq

/-- The synchronous front of handleSubmit (lines 94-113): an empty or
whitespace-only query returns before touching any state; otherwise the
loading flag is set, the accumulator reset, the previous request aborted
and a fresh abort controller installed. -/
def submitStart (q : List Char) (s : UiState) : UiState :=
  if (jsTrim q).isEmpty then s
  else { resp := [], loading := true, gen := s.gen + 1 }

def failureNotice : List Char :=
  ("Sorry, there was an error processing your request. Please try again.").toList

/-- The catch/finally tail of handleSubmit (lines 208-215), run when the
awaited fetch or read rejects: a non-abort error overwrites the
accumulator with the generic failure notice; an abort error is suppressed;
the finally block clears the loading flag unconditionally in both cases. -/
def catchFinallyCleanup (isAbortError : Bool) (s : UiState) : UiState :=
  if isAbortError then { s with loading := false }
  else { s with resp := failureNotice, loading := false }

theorem processLine_halted (st : ConsumerState) (l : List Char)
    (h : st.halted = true) : processLine st l = st := by
  simp [processLine, h]

theorem processLines_halted (st : ConsumerState) (ls : List (List Char))
    (h : st.halted = true) : processLines st ls = st := by
  induction ls with
  | nil => rfl
  | cons l ls ih =>
    show processLines (processLine st l) ls = st
    rw [processLine_halted st l h]
    exact ih

theorem feedChunk_halted (st : ConsumerState) (c : List Char)
    (h : st.halted = true) : feedChunk st c = st := by
  simp [feedChunk, h]

theorem processLine_buffer (st : ConsumerState) (l : List Char) :
    (processLine st l).buffer = st.buffer := by
  by_cases h : st.halted = true
  · rw [processLine_halted st l h]
  · rw [Bool.not_eq_true] at h
    cases hE : lineEffect l <;> simp [processLine, h, hE]

theorem processLines_buffer (st : ConsumerState) (ls : List (List Char)) :
    (processLines st ls).buffer = st.buffer := by
  induction ls generalizing st with
  | nil => rfl
  | cons l ls ih =>
    show (processLines (processLine st l) ls).buffer = st.buffer
    rw [ih, processLine_buffer]

theorem processLine_set_buffer (st : ConsumerState) (b : List Char)
    (l : List Char) :
    processLine { st with buffer := b } l =
      { processLine st l with buffer := b } := by
  by_cases h : st.halted = true
  · rw [processLine_halted st l h]
    have h2 : ({ st with buffer := b } : ConsumerState).halted = true := h
    rw [processLine_halted _ l h2]
  · rw [Bool.not_eq_true] at h
    cases hE : lineEffect l <;> simp [processLine, h, hE]

theorem processLines_set_buffer (st : ConsumerState) (b : List Char)
    (ls : List (List Char)) :
    processLines { st with buffer := b } ls =
      { processLines st ls with buffer := b } := by
  induction ls generalizing st with
  | nil => rfl
  | cons l ls ih =>
    show processLines (processLine { st with buffer := b } l) ls = _
    rw [processLine_set_buffer, ih]
    rfl

theorem processLines_append (st : ConsumerState) (l1 l2 : List (List Char)) :
    processLines st (l1 ++ l2) = processLines (processLines st l1) l2 :=
  List.foldl_append ..

theorem splitComplete_append (a b : List Char) :
    splitComplete (a ++ b) =
      ((splitComplete a).1 ++ (splitComplete ((splitComplete a).2 ++ b)).1,
        (splitComplete ((splitComplete a).2 ++ b)).2) := by
  induction a with
  | nil => simp [splitComplete]
  | cons c a ih =>
    rcases hsa : splitComplete a with ⟨la, ra⟩
    rw [hsa] at ih
    rcases hsx : splitComplete (ra ++ b) with ⟨lx, rx⟩
    rw [hsx] at ih
    by_cases hc : c = '\n'
    · subst hc
      simp [splitComplete, ih, hsa, hsx]
    · cases la with
      | nil =>
        cases lx with
        | nil => simp [splitComplete, ih, hsa, hsx, hc]
        | cons l ls => simp [splitComplete, ih, hsa, hsx, hc]
      | cons m ms => simp [splitComplete, ih, hsa, hsx, hc]

theorem splitComplete_no_nl (s : List Char) : '\n' ∉ (splitComplete s).2 := by
  induction s with
  | nil => simp [splitComplete]
  | cons c s ih =>
    rcases hs : splitComplete s with ⟨ls, rs⟩
    rw [hs] at ih
    by_cases hc : c = '\n'
    · subst hc; simp [splitComplete, hs]; exact ih
    · cases ls with
      | nil =>
        simp [splitComplete, hs, hc]
        exact ⟨fun h => hc h.symm, ih⟩
      | cons l ls2 => simp [splitComplete, hs, hc]; exact ih

theorem splitComplete_of_no_nl (s : List Char) (h : '\n' ∉ s) :
    splitComplete s = ([], s) := by
  induction s with
  | nil => rfl
  | cons c s ih =>
    have hc : ¬(c = '\n') := fun hh => h (by rw [hh]; exact List.mem_cons_self _ _)
    have hs : '\n' ∉ s := fun hh => h (List.mem_cons_of_mem c hh)
    simp [splitComplete, ih hs, hc]

/-- Equality of consumer states up to the dead buffer of a halted run: the
observable fields always agree, and the carry-over buffer agrees whenever
the stream is still live. -/
def stEquiv (s t : ConsumerState) : Prop :=
  s.resp = t.resp ∧ s.loading = t.loading ∧ s.halted = t.halted ∧
    s.events = t.events ∧ (s.halted = false → s.buffer = t.buffer)

theorem stEquiv_refl (s : ConsumerState) : stEquiv s s :=
  ⟨rfl, rfl, rfl, rfl, fun _ => rfl⟩

theorem stEquiv_of_eq {s t : ConsumerState} (h : s = t) : stEquiv s t :=
  h ▸ stEquiv_refl s

theorem stEquiv_symm {s t : ConsumerState} (h : stEquiv s t) : stEquiv t s :=
  ⟨h.1.symm, h.2.1.symm, h.2.2.1.symm, h.2.2.2.1.symm,
    fun hf => (h.2.2.2.2 (h.2.2.1.trans hf)).symm⟩

theorem stEquiv_trans {s t u : ConsumerState} (h1 : stEquiv s t)
    (h2 : stEquiv t u) : stEquiv s u :=
  ⟨h1.1.trans h2.1, h1.2.1.trans h2.2.1, h1.2.2.1.trans h2.2.2.1,
    h1.2.2.2.1.trans h2.2.2.2.1,
    fun hf => (h1.2.2.2.2 hf).trans (h2.2.2.2.2 (h1.2.2.1.symm.trans hf))⟩

theorem feedChunk_comp (st : ConsumerState) (c1 c2 : List Char) :
    stEquiv (feedChunk (feedChunk st c1) c2) (feedChunk st (c1 ++ c2)) := by
  cases hh : st.halted with
  | true =>
    rw [feedChunk_halted st c1 hh, feedChunk_halted st c2 hh,
      feedChunk_halted st (c1 ++ c2) hh]
    exact stEquiv_refl st
  | false =>
    rcases hp : splitComplete (st.buffer ++ c1) with ⟨L1, r1⟩
    have hfc1 : feedChunk st c1 = processLines { st with buffer := r1 } L1 := by
      simp [feedChunk, hh, hp]
    set u := processLines { st with buffer := r1 } L1 with hu
    have hub : u.buffer = r1 := by
      rw [hu, processLines_buffer]
    rcases hq : splitComplete (r1 ++ c2) with ⟨L2, r2⟩
    have hsc : splitComplete (st.buffer ++ (c1 ++ c2)) = (L1 ++ L2, r2) := by
      rw [← List.append_assoc, splitComplete_append (st.buffer ++ c1) c2, hp]
      simp [hq]
    have e0 : u = { processLines st L1 with buffer := r1 } := by
      rw [hu, processLines_set_buffer]
    have e1 : processLines { st with buffer := r2 } L1 = { u with buffer := r2 } := by
      rw [processLines_set_buffer, e0]
    have hRHS0 : feedChunk st (c1 ++ c2) =
        processLines { st with buffer := r2 } (L1 ++ L2) := by
      simp [feedChunk, hh, hsc]
    have hRHS : feedChunk st (c1 ++ c2) = processLines { u with buffer := r2 } L2 := by
      rw [hRHS0, processLines_append, e1]
    cases hhu : u.halted with
    | false =>
      have hL : feedChunk u c2 = processLines { u with buffer := r2 } L2 := by
        simp [feedChunk, hhu, hub, hq]
      rw [hfc1, hL, hRHS]
      exact stEquiv_refl _
    | true =>
      have hL : feedChunk u c2 = u := feedChunk_halted _ _ hhu
      have hPL : processLines { u with buffer := r2 } L2 = { u with buffer := r2 } :=
        processLines_halted _ _ hhu
      rw [hfc1, hL, hRHS, hPL]
      exact ⟨rfl, rfl, rfl, rfl, fun hf => absurd (hhu ▸ hf) (by simp [hhu])⟩

theorem feedChunk_no_nl (st : ConsumerState) (c : List Char)
    (h : '\n' ∉ st.buffer) : '\n' ∉ (feedChunk st c).buffer := by
  cases hh : st.halted with
  | true => rw [feedChunk_halted st c hh]; exact h
  | false =>
    rcases hp : splitComplete (st.buffer ++ c) with ⟨L, r⟩
    have : feedChunk st c = processLines { st with buffer := r } L := by
      simp [feedChunk, hh, hp]
    rw [this, processLines_buffer]
    have := splitComplete_no_nl (st.buffer ++ c)
    rw [hp] at this
    exact this

theorem foldl_feedChunk_flatten (cs : List (List Char)) (st : ConsumerState)
    (hb : '\n' ∉ st.buffer) :
    stEquiv (cs.foldl feedChunk st) (feedChunk st cs.flatten) := by
  induction cs generalizing st with
  | nil =>
    show stEquiv st (feedChunk st [])
    obtain ⟨buf, resp, loading, halted, events⟩ := st
    cases halted with
    | true => rw [feedChunk_halted _ [] rfl]; exact stEquiv_refl _
    | false =>
      have hsc : splitComplete buf = ([], buf) := splitComplete_of_no_nl _ hb
      have hfe : feedChunk ⟨buf, resp, loading, false, events⟩ [] =
          ⟨buf, resp, loading, false, events⟩ := by
        simp [feedChunk, hsc, processLines]
      rw [hfe]; exact stEquiv_refl _
  | cons c cs ih =>
    have hb2 : '\n' ∉ (feedChunk st c).buffer := feedChunk_no_nl st c hb
    have h1 := ih (feedChunk st c) hb2
    have h2 := feedChunk_comp st c cs.flatten
    rw [List.foldl_cons, List.flatten_cons]
    exact stEquiv_trans h1 h2

/-- The response accumulator always equals the concatenated text of the
decoded events. -/
def respAligned (st : ConsumerState) : Prop :=
  st.resp = (st.events.map eventText).flatten

theorem processLine_respAligned (st : ConsumerState) (l : List Char)
    (h : respAligned st) : respAligned (processLine st l) := by
  by_cases hh : st.halted = true
  · rw [processLine_halted st l hh]; exact h
  · rw [Bool.not_eq_true] at hh
    unfold respAligned at h ⊢
    cases hE : lineEffect l <;> simp [processLine, hh, hE, h, eventText]

theorem processLines_respAligned (st : ConsumerState) (ls : List (List Char))
    (h : respAligned st) : respAligned (processLines st ls) := by
  induction ls generalizing st with
  | nil => exact h
  | cons l ls ih => exact ih _ (processLine_respAligned st l h)

theorem feedChunk_respAligned (st : ConsumerState) (c : List Char)
    (h : respAligned st) : respAligned (feedChunk st c) := by
  cases hh : st.halted with
  | true => rw [feedChunk_halted st c hh]; exact h
  | false =>
    rcases hp : splitComplete (st.buffer ++ c) with ⟨L, r⟩
    have : feedChunk st c = processLines { st with buffer := r } L := by
      simp [feedChunk, hh, hp]
    rw [this]
    exact processLines_respAligned _ _ h

theorem runChunks_respAligned (chunks : List (List Char)) :
    respAligned (runChunks chunks) := by
  have base : respAligned initState := rfl
  unfold runChunks
  generalize initState = st at base ⊢
  induction chunks generalizing st with
  | nil => exact base
  | cons c cs ih => exact ih _ (feedChunk_respAligned st c base)

/-- While the stream has not been ended by a terminal payload, every
decoded event is a content event. -/
def liveContent (st : ConsumerState) : Prop :=
  st.halted = false → st.events.all isContentEv = true

theorem processLine_liveContent (st : ConsumerState) (l : List Char)
    (h : liveContent st) : liveContent (processLine st l) := by
  by_cases hh : st.halted = true
  · rw [processLine_halted st l hh]; exact h
  · rw [Bool.not_eq_true] at hh
    unfold liveContent at h ⊢
    cases hE : lineEffect l with
    | skip =>
      have hres : processLine st l = st := by simp [processLine, hh, hE]
      rw [hres]; exact h
    | append s =>
      have hres : processLine st l =
          { st with resp := st.resp ++ s,
                    events := st.events ++ [StreamEvent.content s] } := by
        simp [processLine, hh, hE]
      rw [hres]
      intro hf
      rw [List.all_append, h hf]
      simp [isContentEv]
    | finish =>
      have hres : processLine st l =
          { st with loading := false, halted := true,
                    events := st.events ++ [StreamEvent.doneEv] } := by
        simp [processLine, hh, hE]
      rw [hres]
      intro hf
      cases hf
    | fail m =>
      have hres : processLine st l =
          { st with resp := st.resp ++ errNotice ++ m,
                    loading := false, halted := true,
                    events := st.events ++ [StreamEvent.errorEv m] } := by
        simp [processLine, hh, hE]
      rw [hres]
      intro hf
      cases hf

theorem processLines_liveContent (st : ConsumerState) (ls : List (List Char))
    (h : liveContent st) : liveContent (processLines st ls) := by
  induction ls generalizing st with
  | nil => exact h
  | cons l ls ih => exact ih _ (processLine_liveContent st l h)

theorem feedChunk_liveContent (st : ConsumerState) (c : List Char)
    (h : liveContent st) : liveContent (feedChunk st c) := by
  cases hh : st.halted with
  | true => rw [feedChunk_halted st c hh]; exact h
  | false =>
    rcases hp : splitComplete (st.buffer ++ c) with ⟨L, r⟩
    have : feedChunk st c = processLines { st with buffer := r } L := by
      simp [feedChunk, hh, hp]
    rw [this]
    exact processLines_liveContent _ _ h

theorem runChunks_liveContent (chunks : List (List Char)) :
    liveContent (runChunks chunks) := by
  have base : liveContent initState := fun _ => rfl
  unfold runChunks
  generalize initState = st at base ⊢
  induction chunks generalizing st with
  | nil => exact base
  | cons c cs ih => exact ih _ (feedChunk_liveContent st c base)

theorem map_eventText_of_all_content (es : List StreamEvent)
    (h : es.all isContentEv = true) :
    es.map eventText = es.filterMap contentOf := by
  induction es with
  | nil => rfl
  | cons e es ih =>
    rw [List.all_cons, Bool.and_eq_true] at h
    cases e with
    | content s => simp [eventText, contentOf, ih h.2]
    | doneEv => cases h.1
    | errorEv m => cases h.1

theorem processLines_cons (st : ConsumerState) (l : List Char)
    (ls : List (List Char)) :
    processLines st (l :: ls) = processLines (processLine st l) ls := rfl

theorem processLines_singleton (st : ConsumerState) (l : List Char) :
    processLines st [l] = processLine st l := rfl

theorem lineEffect_of_terminalDone (line : List Char)
    (h : isTerminalDoneLine line = true) : lineEffect line = LineEffect.finish := by
  unfold isTerminalDoneLine at h
  rw [Bool.and_eq_true] at h
  obtain ⟨h1, h2⟩ := h
  by_cases hd : jsTrim (line.drop 6) = doneToken
  · simp [lineEffect, h1, hd]
  · rw [Bool.or_eq_true] at h2
    rcases h2 with h2 | h2
    · exact absurd (of_decide_eq_true h2) hd
    · unfold lineDoneTruthy at h2
      cases hj : parseJson (jsTrim (line.drop 6)) with
      | none => rw [hj] at h2; cases h2
      | some j =>
        rw [hj] at h2
        rw [Bool.and_eq_true] at h2
        obtain ⟨hn, hdone⟩ := h2
        rw [Bool.not_eq_true'] at hn
        simp [lineEffect, h1, hd, hj, hn, hdone]

theorem lineEffect_of_errorMsg (line : List Char) (msg : List Char)
    (hp : dataMark.isPrefixOf line = true) (h : lineErrorMsg line = some msg) :
    lineEffect line = LineEffect.fail msg := by
  by_cases hd : jsTrim (line.drop 6) = doneToken
  · simp [lineErrorMsg, hd] at h
  · cases hj : parseJson (jsTrim (line.drop 6)) with
    | none => simp [lineErrorMsg, hd, hj] at h
    | some j =>
      rw [lineErrorMsg, if_neg hd, hj] at h
      dsimp only at h
      by_cases hcond : (!j.isNull && !jsTruthy (getField j doneKey) &&
          jsTruthy (getField j errorKey)) = true
      · rw [if_pos hcond] at h
        rw [Bool.and_eq_true, Bool.and_eq_true] at hcond
        obtain ⟨⟨hn, hnd⟩, herr⟩ := hcond
        rw [Bool.not_eq_true'] at hn hnd
        have hmsg := Option.some.inj h
        simp [lineEffect, hp, hd, hj, hn, hnd, herr, hmsg]
      · rw [if_neg hcond] at h
        cases h

theorem lineEffect_of_parseFail (line : List Char)
    (hnd : jsTrim (line.drop 6) ≠ doneToken)
    (hj : (parseJson (jsTrim (line.drop 6))).isNone = true) :
    lineEffect line = LineEffect.skip := by
  rw [Option.isNone_iff_eq_none] at hj
  by_cases hp : dataMark.isPrefixOf line = true
  · simp [lineEffect, hp, hnd, hj]
  · rw [Bool.not_eq_true] at hp
    simp [lineEffect, hp]

theorem lineEffect_of_notData (line : List Char)
    (hp : dataMark.isPrefixOf line = false) :
    lineEffect line = LineEffect.skip := by
  simp [lineEffect, hp]

theorem processLine_skip (st : ConsumerState) (line : List Char)
    (h : lineEffect line = LineEffect.skip) : processLine st line = st := by
  by_cases hh : st.halted = true
  · exact processLine_halted st line hh
  · rw [Bool.not_eq_true] at hh
    simp [processLine, hh, h]

theorem processLine_finish (st : ConsumerState) (line : List Char)
    (hh : st.halted = false) (h : lineEffect line = LineEffect.finish) :
    processLine st line =
      { st with loading := false, halted := true,
                events := st.events ++ [StreamEvent.doneEv] } := by
  simp [processLine, hh, h]

theorem processLine_fail (st : ConsumerState) (line : List Char)
    (msg : List Char) (hh : st.halted = false)
    (h : lineEffect line = LineEffect.fail msg) :
    processLine st line =
      { st with resp := st.resp ++ errNotice ++ msg,
                loading := false, halted := true,
                events := st.events ++ [StreamEvent.errorEv msg] } := by
  simp [processLine, hh, h]

def q2State : UiState :=
  submitStart ("second query").toList
    { resp := ("partial q1 answer").toList, loading := true, gen := 1 }

def q2AfterStaleCleanup : UiState := catchFinallyCleanup true q2State

/-- Claim C1, divergence witness.  The claim (and the spec guarantee)
says that after a second submission no event from the superseded first
request can append to the response accumulator or flip the loading flag.
In the code, submit of q2 runs its synchronous prefix (lines 95-113):
it sets the loading flag, resets the accumulator and aborts q1's
controller.  q1's handler, suspended at its awaited read, then resumes
with an AbortError rejection - after q2's submission and while q2's
stream is still open - and runs lines 208-215: the catch suppresses the
response write because the error is an abort, but the finally block calls
setLoading(false) unconditionally.  There is no check that the handler
still owns the current request.  This theorem evaluates that interleaving:
right after q2's submission the loading flag is true, and the superseded
q1's cleanup then flips it to false (leaving the accumulator and the
pending handle untouched), even though q2's stream has produced no
terminal event. -/
theorem claim1_stale_cleanup_flips_loading :
    q2State.loading = true ∧
    q2AfterStaleCleanup.loading = false ∧
    q2AfterStaleCleanup.resp = q2State.resp ∧
    q2AfterStaleCleanup.gen = q2State.gen := by
  decide

/-- Claim C2: for every sequence of transport text, the decoded event
sequence, the response accumulator, the loading flag and the halt state
are the same for every way of splitting that text into chunks, including
splits in the middle of a line: the carry-over buffer retains the
trailing partial line and only newline-terminated lines are processed. -/
theorem claim2_chunking_transparent (cs1 cs2 : List (List Char))
    (h : cs1.flatten = cs2.flatten) :
    (runChunks cs1).events = (runChunks cs2).events ∧
    (runChunks cs1).resp = (runChunks cs2).resp ∧
    (runChunks cs1).loading = (runChunks cs2).loading ∧
    (runChunks cs1).halted = (runChunks cs2).halted := by
  have h1 := foldl_feedChunk_flatten cs1 initState (by simp [initState])
  have h2 := foldl_feedChunk_flatten cs2 initState (by simp [initState])
  rw [h] at h1
  have h3 := stEquiv_trans h1 (stEquiv_symm h2)
  exact ⟨h3.2.2.2.1, h3.1, h3.2.1, h3.2.2.1⟩

theorem claim2_witness :
    ([("data: \x7b\"content\":\"a\"\x7d\nda").toList,
      ("ta: \x7b\"content\":\"b\"\x7d\n").toList].flatten =
        [("data: \x7b\"content\":\"a\"\x7d\ndata: \x7b\"content\":\"b\"\x7d\n").toList].flatten) ∧
    ((runChunks [("data: \x7b\"content\":\"a\"\x7d\nda").toList,
        ("ta: \x7b\"content\":\"b\"\x7d\n").toList]).events =
      (runChunks [("data: \x7b\"content\":\"a\"\x7d\ndata: \x7b\"content\":\"b\"\x7d\n").toList]).events ∧
     (runChunks [("data: \x7b\"content\":\"a\"\x7d\nda").toList,
        ("ta: \x7b\"content\":\"b\"\x7d\n").toList]).resp =
      (runChunks [("data: \x7b\"content\":\"a\"\x7d\ndata: \x7b\"content\":\"b\"\x7d\n").toList]).resp ∧
     (runChunks [("data: \x7b\"content\":\"a\"\x7d\nda").toList,
        ("ta: \x7b\"content\":\"b\"\x7d\n").toList]).loading =
      (runChunks [("data: \x7b\"content\":\"a\"\x7d\ndata: \x7b\"content\":\"b\"\x7d\n").toList]).loading ∧
     (runChunks [("data: \x7b\"content\":\"a\"\x7d\nda").toList,
        ("ta: \x7b\"content\":\"b\"\x7d\n").toList]).halted =
      (runChunks [("data: \x7b\"content\":\"a\"\x7d\ndata: \x7b\"content\":\"b\"\x7d\n").toList]).halted) :=
  ⟨by decide, claim2_chunking_transparent _ _ (by decide)⟩

/-- Claim C3: when a recognized content line carries a payload with a
truthy done marker or is the literal end-of-stream sentinel, the consumer
immediately clears the loading flag and stops: the remaining lines change
nothing, nothing is appended by the terminal line, and any later chunk
leaves the state untouched. -/
theorem claim3_done_terminates (st : ConsumerState) (line : List Char)
    (rest : List (List Char)) (chunk : List Char)
    (hnh : st.halted = false) (hline : isTerminalDoneLine line = true) :
    processLines st (line :: rest) = processLines st [line] ∧
    (processLines st [line]).loading = false ∧
    (processLines st [line]).halted = true ∧
    (processLines st [line]).resp = st.resp ∧
    feedChunk (processLines st [line]) chunk = processLines st [line] := by
  have he := lineEffect_of_terminalDone line hline
  have h1 := processLine_finish st line hnh he
  have hhalts : (processLine st line).halted = true := by rw [h1]
  refine ⟨?_, ?_, ?_, ?_, ?_⟩
  · rw [processLines_cons, processLines_singleton, processLines_halted _ _ hhalts]
  · rw [processLines_singleton, h1]
  · rw [processLines_singleton, h1]
  · rw [processLines_singleton, h1]
  · rw [processLines_singleton, feedChunk_halted _ _ hhalts]

theorem claim3_witness :
    (initState.halted = false ∧
      isTerminalDoneLine ("data: [DONE]").toList = true) ∧
    (processLines initState
        (("data: [DONE]").toList :: [("data: \x7b\"content\":\"x\"\x7d").toList]) =
      processLines initState [("data: [DONE]").toList] ∧
     (processLines initState [("data: [DONE]").toList]).loading = false ∧
     (processLines initState [("data: [DONE]").toList]).halted = true ∧
     (processLines initState [("data: [DONE]").toList]).resp = initState.resp ∧
     feedChunk (processLines initState [("data: [DONE]").toList])
        ("data: \x7b\"content\":\"y\"\x7d\n").toList =
      processLines initState [("data: [DONE]").toList]) :=
  ⟨⟨rfl, by decide⟩,
    claim3_done_terminates initState ("data: [DONE]").toList
      [("data: \x7b\"content\":\"x\"\x7d").toList]
      ("data: \x7b\"content\":\"y\"\x7d\n").toList rfl (by decide)⟩

/-- Claim C4: a stream that reaches transport end-of-stream without any
terminal payload having been observed ends with the loading flag false
(the finally block clears it), every decoded event a content event, and
the accumulator exactly the concatenation of the content that arrived. -/
theorem claim4_eof_without_terminal (chunks : List (List Char))
    (h : (runChunks chunks).halted = false) :
    (runStream chunks).loading = false ∧
    (runStream chunks).resp =
      ((runStream chunks).events.filterMap contentOf).flatten ∧
    (runStream chunks).events.all isContentEv = true := by
  have hra := runChunks_respAligned chunks
  have hlc := runChunks_liveContent chunks h
  refine ⟨rfl, ?_, hlc⟩
  show (runChunks chunks).resp =
    ((runChunks chunks).events.filterMap contentOf).flatten
  rw [← map_eventText_of_all_content _ hlc]
  exact hra

theorem claim4_witness :
    ((runChunks [("data: \x7b\"content\":\"hi\"\x7d\n").toList]).halted = false) ∧
    ((runStream [("data: \x7b\"content\":\"hi\"\x7d\n").toList]).loading = false ∧
     (runStream [("data: \x7b\"content\":\"hi\"\x7d\n").toList]).resp =
       ((runStream [("data: \x7b\"content\":\"hi\"\x7d\n").toList]).events.filterMap
         contentOf).flatten ∧
     (runStream [("data: \x7b\"content\":\"hi\"\x7d\n").toList]).events.all
       isContentEv = true) :=
  ⟨by decide, claim4_eof_without_terminal _ (by decide)⟩

/-- Claim C5: a recognized content line whose payload carries a (truthy)
error field and no truthy done field appends the error notice naming the
message to the accumulator, clears the loading flag, and stops: no later
line of the stream is processed. -/
theorem claim5_error_terminates (st : ConsumerState) (line : List Char)
    (rest : List (List Char)) (msg : List Char)
    (hnh : st.halted = false) (hp : dataMark.isPrefixOf line = true)
    (hmsg : lineErrorMsg line = some msg) :
    (processLines st [line]).resp = st.resp ++ errNotice ++ msg ∧
    (processLines st [line]).loading = false ∧
    (processLines st [line]).halted = true ∧
    processLines st (line :: rest) = processLines st [line] := by
  have he := lineEffect_of_errorMsg line msg hp hmsg
  have h1 := processLine_fail st line msg hnh he
  have hhalts : (processLine st line).halted = true := by rw [h1]
  refine ⟨?_, ?_, ?_, ?_⟩
  · rw [processLines_singleton, h1]
  · rw [processLines_singleton, h1]
  · rw [processLines_singleton, h1]
  · rw [processLines_cons, processLines_singleton, processLines_halted _ _ hhalts]

theorem claim5_witness :
    (initState.halted = false ∧
      dataMark.isPrefixOf ("data: \x7b\"error\":\"rate limited\"\x7d").toList = true ∧
      lineErrorMsg ("data: \x7b\"error\":\"rate limited\"\x7d").toList =
        some ("rate limited").toList) ∧
    ((processLines initState [("data: \x7b\"error\":\"rate limited\"\x7d").toList]).resp =
        initState.resp ++ errNotice ++ ("rate limited").toList ∧
     (processLines initState [("data: \x7b\"error\":\"rate limited\"\x7d").toList]).loading = false ∧
     (processLines initState [("data: \x7b\"error\":\"rate limited\"\x7d").toList]).halted = true ∧
     processLines initState
        (("data: \x7b\"error\":\"rate limited\"\x7d").toList ::
          [("data: \x7b\"content\":\"z\"\x7d").toList]) =
      processLines initState [("data: \x7b\"error\":\"rate limited\"\x7d").toList]) :=
  ⟨⟨rfl, by decide, by decide⟩,
    claim5_error_terminates initState ("data: \x7b\"error\":\"rate limited\"\x7d").toList
      [("data: \x7b\"content\":\"z\"\x7d").toList] ("rate limited").toList
      rfl (by decide) (by decide)⟩

/-- Claim C6: a recognized content line whose payload is not valid JSON
(and is not the sentinel) is skipped without aborting the stream, and the
remaining lines are processed exactly as they would be without it. -/
theorem claim6_bad_json_skipped (st : ConsumerState) (line : List Char)
    (rest : List (List Char))
    (hp : dataMark.isPrefixOf line = true)
    (hnd : jsTrim (line.drop 6) ≠ doneToken)
    (hj : (parseJson (jsTrim (line.drop 6))).isNone = true) :
    processLine st line = st ∧
    processLines st (line :: rest) = processLines st rest := by
  have hskip := lineEffect_of_parseFail line hnd hj
  have h1 := processLine_skip st line hskip
  exact ⟨h1, by rw [processLines_cons, h1]⟩

theorem claim6_witness :
    (dataMark.isPrefixOf ("data: \x7bnot json\x7d").toList = true ∧
      jsTrim (("data: \x7bnot json\x7d").toList.drop 6) ≠ doneToken ∧
      (parseJson (jsTrim (("data: \x7bnot json\x7d").toList.drop 6))).isNone = true) ∧
    (processLine initState ("data: \x7bnot json\x7d").toList = initState ∧
     processLines initState
        (("data: \x7bnot json\x7d").toList ::
          [("data: \x7b\"content\":\"ok\"\x7d").toList]) =
      processLines initState [("data: \x7b\"content\":\"ok\"\x7d").toList]) :=
  ⟨⟨by decide, by decide, by decide⟩,
    claim6_bad_json_skipped initState ("data: \x7bnot json\x7d").toList
      [("data: \x7b\"content\":\"ok\"\x7d").toList]
      (by decide) (by decide) (by decide)⟩

def sampleRevenueChunks : List (List Char) :=
  [("data: \x7b\"content\":\"Reven\"\x7d\n").toList,
   ("data: \x7b\"content\":\"ue: $10B\"\x7d\n").toList,
   ("data: \x7b\"done\":true\x7d\n").toList]

/-- Claim C7: every decoded event contributes exactly its own text to the
response accumulator - content verbatim, with no implicit separator - so
the accumulator is always the concatenation of the event texts in arrival
order; in particular the three-line scenario of the claim accumulates
exactly the string Revenue: $10B and ends with the loading flag false. -/
theorem claim7_verbatim_concat :
    (∀ chunks : List (List Char),
      (runChunks chunks).resp =
        ((runChunks chunks).events.map eventText).flatten) ∧
    (runStream sampleRevenueChunks).resp = ("Revenue: $10B").toList ∧
    (runStream sampleRevenueChunks).loading = false := by
  refine ⟨fun chunks => runChunks_respAligned chunks, by decide, by decide⟩

/-- Claim C8: submitting an empty or whitespace-only query is a no-op:
the guard of line 97 returns before any state is touched, so the loading
flag, the response accumulator and the pending request handle are all
unchanged and no request is issued. -/
theorem claim8_blank_submit_noop (q : List Char) (s : UiState)
    (h : q.all isWsChar = true) : submitStart q s = s := by
  have hdw : q.dropWhile isWsChar = [] := by
    rw [List.dropWhile_eq_nil_iff]
    intro x hx
    exact (List.all_eq_true.mp h) x hx
  have ht : jsTrim q = [] := by
    unfold jsTrim
    rw [hdw]
    rfl
  simp [submitStart, ht]

theorem claim8_witness :
    (("  \t ").toList.all isWsChar = true) ∧
    submitStart ("  \t ").toList
        { resp := ("earlier answer").toList, loading := false, gen := 4 } =
      { resp := ("earlier answer").toList, loading := false, gen := 4 } :=
  ⟨by decide,
    claim8_blank_submit_noop ("  \t ").toList
      { resp := ("earlier answer").toList, loading := false, gen := 4 } (by decide)⟩

/-- Claim C9: every complete line that does not begin with the content
prefix - blank lines, the event/id/retry framing markers, and any other
unrecognized line - is skipped without error and without changing the
response accumulator, the loading flag, or anything else in the state,
and the remaining lines are processed as if it were absent. -/
theorem claim9_non_content_skipped (st : ConsumerState) (line : List Char)
    (rest : List (List Char)) (hp : dataMark.isPrefixOf line = false) :
    processLine st line = st ∧
    processLines st (line :: rest) = processLines st rest := by
  have h1 := processLine_skip st line (lineEffect_of_notData line hp)
  exact ⟨h1, by rw [processLines_cons, h1]⟩

theorem claim9_witness :
    (dataMark.isPrefixOf ("retry: 100").toList = false) ∧
    (processLine initState ("retry: 100").toList = initState ∧
     processLines initState
        (("retry: 100").toList :: [("data: \x7b\"content\":\"m\"\x7d").toList]) =
      processLines initState [("data: \x7b\"content\":\"m\"\x7d").toList]) :=
  ⟨by decide,
    claim9_non_content_skipped initState ("retry: 100").toList
      [("data: \x7b\"content\":\"m\"\x7d").toList] (by decide)⟩

/-- Claim C10: the payload fields are dispatched in the fixed order
sentinel, done, error, content, so a payload whose done field is truthy
terminates the stream as a success no matter what else it carries: the
accumulator is unchanged (no error notice, no content is appended), the
loading flag is cleared, the only decoded event is the terminal done, and
no later line is processed. -/
theorem claim10_done_priority (st : ConsumerState) (line : List Char)
    (rest : List (List Char)) (hnh : st.halted = false)
    (hp : dataMark.isPrefixOf line = true) (hd : lineDoneTruthy line = true) :
    (processLine st line).resp = st.resp ∧
    (processLine st line).loading = false ∧
    (processLine st line).halted = true ∧
    (processLine st line).events = st.events ++ [StreamEvent.doneEv] ∧
    processLines st (line :: rest) = processLine st line := by
  have hterm : isTerminalDoneLine line = true := by
    unfold isTerminalDoneLine
    rw [hp, hd]
    simp
  have he := lineEffect_of_terminalDone line hterm
  have h1 := processLine_finish st line hnh he
  have hhalts : (processLine st line).halted = true := by rw [h1]
  refine ⟨by rw [h1], by rw [h1], hhalts, by rw [h1], ?_⟩
  rw [processLines_cons, processLines_halted _ _ hhalts]

theorem claim10_witness :
    (initState.halted = false ∧
      dataMark.isPrefixOf
        ("data: \x7b\"done\":true,\"error\":\"x\",\"content\":\"y\"\x7d").toList = true ∧
      lineDoneTruthy
        ("data: \x7b\"done\":true,\"error\":\"x\",\"content\":\"y\"\x7d").toList = true) ∧
    ((processLine initState
        ("data: \x7b\"done\":true,\"error\":\"x\",\"content\":\"y\"\x7d").toList).resp =
        initState.resp ∧
     (processLine initState
        ("data: \x7b\"done\":true,\"error\":\"x\",\"content\":\"y\"\x7d").toList).loading = false ∧
     (processLine initState
        ("data: \x7b\"done\":true,\"error\":\"x\",\"content\":\"y\"\x7d").toList).halted = true ∧
     (processLine initState
        ("data: \x7b\"done\":true,\"error\":\"x\",\"content\":\"y\"\x7d").toList).events =
        initState.events ++ [StreamEvent.doneEv] ∧
     processLines initState
        (("data: \x7b\"done\":true,\"error\":\"x\",\"content\":\"y\"\x7d").toList ::
          [("data: \x7b\"content\":\"z\"\x7d").toList]) =
      processLine initState
        ("data: \x7b\"done\":true,\"error\":\"x\",\"content\":\"y\"\x7d").toList) :=
  ⟨⟨rfl, by decide, by decide⟩,
    claim10_done_priority initState
      ("data: \x7b\"done\":true,\"error\":\"x\",\"content\":\"y\"\x7d").toList
      [("data: \x7b\"content\":\"z\"\x7d").toList] rfl (by decide) (by decide)⟩

end SecIntel
